import Mathlib

/-!
Verification of the flatten / nest / match core of the JSON outline editor
(`src/utils.ts`) and the row-edit handler (`src/components/OntologyEditor.tsx`).

The embedding models JSON values as an inductive type; a JS object is an
association list in enumeration order, a JS array a list.  Machine ids are
produced by `Math.random()` in the source; the embedding threads an explicit
id supply `gen : Nat → String` together with a call counter, one draw per
emitted row.
-/

/-- A JSON value.  `obj` keeps fields in JS enumeration order. -/
inductive Json where
  | null : Json
  | bool : Bool → Json
  | num : Int → Json
  | str : String → Json
  | arr : List Json → Json
  | obj : List (String × Json) → Json
deriving Repr

/-- JS `typeof v === 'object'`: true for objects, arrays and `null`. -/
def Json.typeofObject : Json → Bool
  | .null => true
  | .arr _ => true
  | .obj _ => true
  | _ => false

/-- JS `typeof v === 'object' && v !== null`: true exactly for objects and arrays. -/
def Json.isObjOrArr : Json → Bool
  | .arr _ => true
  | .obj _ => true
  | _ => false

/-- One row of the flat outline (`FlatNode` in `src/types.ts`). -/
structure FlatNode where
  id : String
  key : String
  value : Json
  depth : Int
  isMatch : Option Bool := none
deriving Repr

mutual
/-- `flattenJson` from `src/utils.ts`: flatten a JSON value into depth-tagged
rows.  `gen`/`ctr` model the successive draws of `generateId()`. -/
def flattenJson (gen : Nat → String) (data : Json) (depth : Int) (ctr : Nat) :
    List FlatNode × Nat :=
  match data with
  | .arr items => flattenArray gen items 0 depth ctr
  | .obj fields => flattenFields gen fields depth ctr
  | _ => ([], ctr)
termination_by sizeOf data

/-- The `data.forEach((item, index) => ...)` loop of `flattenJson` over an array. -/
def flattenArray (gen : Nat → String) (items : List Json) (index : Nat)
    (depth : Int) (ctr : Nat) : List FlatNode × Nat :=
  match items with
  | [] => ([], ctr)
  | item :: rest =>
    if item.typeofObject then
      let children := flattenJson gen item (depth + 1) (ctr + 1)
      let tail := flattenArray gen rest (index + 1) depth children.2
      (⟨gen ctr, "[" ++ toString index ++ "]", Json.str "", depth, none⟩ ::
        children.1 ++ tail.1, tail.2)
    else
      let tail := flattenArray gen rest (index + 1) depth (ctr + 1)
      (⟨gen ctr, "[" ++ toString index ++ "]", item, depth, none⟩ :: tail.1, tail.2)
termination_by sizeOf items

/-- The `Object.keys(data).forEach((key) => ...)` loop of `flattenJson`. -/
def flattenFields (gen : Nat → String) (fields : List (String × Json))
    (depth : Int) (ctr : Nat) : List FlatNode × Nat :=
  match fields with
  | [] => ([], ctr)
  | (key, value) :: rest =>
    if value.isObjOrArr then
      let children := flattenJson gen value (depth + 1) (ctr + 1)
      let tail := flattenFields gen rest depth children.2
      (⟨gen ctr, key, Json.str "", depth, none⟩ :: children.1 ++ tail.1, tail.2)
    else
      let tail := flattenFields gen rest depth (ctr + 1)
      (⟨gen ctr, key, value, depth, none⟩ :: tail.1, tail.2)
termination_by sizeOf fields
end

/-- Flattening a whole document: `flattenJson(data)` with default arguments. -/
def flattenTop (gen : Nat → String) (data : Json) : List FlatNode :=
  (flattenJson gen data 0 0).1

/-- One entry of `nestJson`'s stack: the container being built, the depth it was
pushed at, and the key under which it is attached in its parent. -/
structure Frame where
  key : String
  obj : Json
  depth : Int
deriving Repr

/-- JS object/array assignment `parent[key] = v` / `parent.push(v)` as performed
by `nestJson`.  Assigning an existing key keeps its position (JS semantics). -/
def assocSet : List (String × Json) → String → Json → List (String × Json)
  | [], key, v => [(key, v)]
  | (k, w) :: rest, key, v =>
    if k = key then (k, v) :: rest else (k, w) :: assocSet rest key v

/-- `if (Array.isArray(parent)) parent.push(v); else parent[key] = v;` -/
def insertJson (target : Json) (key : String) (v : Json) : Json :=
  match target with
  | .arr items => .arr (items ++ [v])
  | .obj fields => .obj (assocSet fields key v)
  | other => other

/-- The `while (stack.length > 1 && top.depth >= node.depth) stack.pop()` loop.
Mutation through JS references is modelled by merging a popped frame's finished
container into its parent at pop time. -/
def popAux (top : Frame) (rest : List Frame) (d : Int) : List Frame :=
  match rest with
  | [] => [top]
  | parent :: rest' =>
    if top.depth ≥ d then
      popAux { parent with obj := insertJson parent.obj top.key top.obj } rest' d
    else
      top :: parent :: rest'

/-- Pop the stack down to the insertion target for a node of depth `d`. -/
def popFrames (stack : List Frame) (d : Int) : List Frame :=
  match stack with
  | [] => []
  | top :: rest => popAux top rest d

/-- The main `for` loop of `nestJson`.  The head of `stack` is the top. -/
def nestLoop (stack : List Frame) (nodes : List FlatNode) : List Frame :=
  match nodes with
  | [] => stack
  | node :: rest =>
    let stack1 := popFrames stack node.depth
    let isParent : Bool :=
      match rest with
      | nextNode :: _ => decide (nextNode.depth > node.depth)
      | [] => false
    if isParent then
      nestLoop ({ key := node.key, obj := Json.obj [], depth := node.depth } :: stack1) rest
    else
      match stack1 with
      | parentF :: rest1 =>
        nestLoop ({ parentF with obj := insertJson parentF.obj node.key node.value } :: rest1) rest
      | [] => nestLoop [] rest

/-- Fold the remaining open frames back into the root (in JS the links already
exist through object references; here they are materialised at the end). -/
def collapseAux (top : Frame) : List Frame → Json
  | [] => top.obj
  | parent :: rest =>
    collapseAux { parent with obj := insertJson parent.obj top.key top.obj } rest

/-- Collapse a whole stack to the root object. -/
def collapseStack : List Frame → Json
  | [] => Json.obj []
  | top :: rest => collapseAux top rest

/-- The sentinel `{ obj: root, depth: -1 }` frame. -/
def rootFrame : Frame := { key := "", obj := Json.obj [], depth := -1 }

/-- `nestJson` from `src/utils.ts`. -/
def nestJson (nodes : List FlatNode) : Json :=
  if nodes.isEmpty then Json.obj []
  else collapseStack (nestLoop [rootFrame] nodes)

/-- The whitespace set trimmed by JS `String.prototype.trim`. -/
def jsWhitespaceChar (c : Char) : Bool :=
  c == ' ' || c == '\t' || c == '\n' || c == '\r' ||
    c == Char.ofNat 0x0B || c == Char.ofNat 0x0C || c == Char.ofNat 0xA0 ||
    c == Char.ofNat 0x2028 || c == Char.ofNat 0x2029 || c == Char.ofNat 0xFEFF

/-- JS `s.trim()`: drop leading and trailing whitespace. -/
def jsTrim (s : String) : String :=
  String.mk (((s.toList.dropWhile jsWhitespaceChar).reverse.dropWhile jsWhitespaceChar).reverse)

/-- Does `needle` start `hay`? -/
def leadsWith : List Char → List Char → Bool
  | [], _ => true
  | _ :: _, [] => false
  | a :: as, b :: bs => a == b && leadsWith as bs

/-- Does `needle` occur contiguously inside `hay`?  (JS `hay.includes(needle)`.) -/
def subOccurs (needle hay : List Char) : Bool :=
  leadsWith needle hay ||
    match hay with
    | [] => false
    | _ :: rest => subOccurs needle rest

/-- JS `source.includes(sub)`. -/
def strIncludes (source sub : String) : Bool :=
  subOccurs sub.toList source.toList

/-- `checkMatch` from `src/utils.ts`.  The JS guard
`if (!value || typeof value !== 'string') return true` is `true` for every
non-string and for the empty string (the only falsy string). -/
def checkMatch (value : Json) (source : String) : Bool :=
  match value with
  | .str s =>
    if s = "" then true
    else
      let normalizedValue := jsTrim s
      if normalizedValue.length = 0 then true
      else strIncludes source normalizedValue
  | _ => true

/-- `getHashTags` from `src/utils.ts`: `'#'.repeat(depth + 1)`. -/
def getHashTags (depth : Int) : String :=
  String.mk (List.replicate (depth + 1).toNat '#')

/-- Length of the leading run of `'#'` characters
(the group matched by `/^(#+)/`). -/
def countLeadingHash : List Char → Nat
  | [] => 0
  | c :: rest => if c = '#' then countLeadingHash rest + 1 else 0

/-- The structure-edit depth parser in `handleRowChange`
(`src/components/OntologyEditor.tsx`):
`match = value.match(/^(#+)/); depth = match ? match[1].length - 1 : 0`. -/
def parseStructureDepth (value : String) : Int :=
  let n := countLeadingHash value.toList
  if n = 0 then 0 else (n : Int) - 1

/-- `handleRowChange` from `src/components/OntologyEditor.tsx`: apply one
structure / key / value edit to the row with the given id. -/
def handleRowChange (docNodes : List FlatNode) (sourceText : String)
    (id : String) (value : String) (ty : String) : List FlatNode :=
  docNodes.map fun node =>
    if node.id ≠ id then node
    else if ty = "structure" then { node with depth := parseStructureDepth value }
    else if ty = "key" then { node with key := value }
    else { node with value := Json.str value,
                     isMatch := some (checkMatch (Json.str value) sourceText) }

/-- Is this frame's container a JS object (as opposed to an array or scalar)? -/
def Frame.isObjFrame (f : Frame) : Bool :=
  match f.obj with
  | .obj _ => true
  | _ => false

/-- The stack invariant of `nestJson`: the bottom entry is still the sentinel
root — depth `-1` and an object container. -/
def rootGood (stack : List Frame) : Prop :=
  ∃ f, stack.getLast? = some f ∧ f.depth = -1 ∧ f.isObjFrame = true

mutual
/-- No `Json.arr` occurs anywhere inside the value. -/
def Json.arrayFree : Json → Bool
  | .arr _ => false
  | .obj fields => arrayFreeFields fields
  | .null => true
  | .bool _ => true
  | .num _ => true
  | .str _ => true
termination_by j => sizeOf j

/-- Every field value is array-free. -/
def arrayFreeFields : List (String × Json) → Bool
  | [] => true
  | (_, v) :: rest => v.arrayFree && arrayFreeFields rest
termination_by fields => sizeOf fields
end

/-- `insertJson` with its `Array.isArray(parent)` branch deleted: used to show
that branch is unreachable in `nestJson`. -/
def insertNoArr (target : Json) (key : String) (v : Json) : Json :=
  match target with
  | .obj fields => .obj (assocSet fields key v)
  | other => other

/-- `popAux` built on `insertNoArr`. -/
def popAuxNoArr (top : Frame) (rest : List Frame) (d : Int) : List Frame :=
  match rest with
  | [] => [top]
  | parent :: rest' =>
    if top.depth ≥ d then
      popAuxNoArr { parent with obj := insertNoArr parent.obj top.key top.obj } rest' d
    else
      top :: parent :: rest'

/-- `popFrames` built on `insertNoArr`. -/
def popFramesNoArr (stack : List Frame) (d : Int) : List Frame :=
  match stack with
  | [] => []
  | top :: rest => popAuxNoArr top rest d

/-- `nestLoop` built on `insertNoArr`. -/
def nestLoopNoArr (stack : List Frame) (nodes : List FlatNode) : List Frame :=
  match nodes with
  | [] => stack
  | node :: rest =>
    let stack1 := popFramesNoArr stack node.depth
    let isParent : Bool :=
      match rest with
      | nextNode :: _ => decide (nextNode.depth > node.depth)
      | [] => false
    if isParent then
      nestLoopNoArr ({ key := node.key, obj := Json.obj [], depth := node.depth } :: stack1) rest
    else
      match stack1 with
      | parentF :: rest1 =>
        nestLoopNoArr ({ parentF with obj := insertNoArr parentF.obj node.key node.value } :: rest1)
          rest
      | [] => nestLoopNoArr [] rest

/-- `collapseAux` built on `insertNoArr`. -/
def collapseAuxNoArr (top : Frame) : List Frame → Json
  | [] => top.obj
  | parent :: rest =>
    collapseAuxNoArr { parent with obj := insertNoArr parent.obj top.key top.obj } rest

/-- `collapseStack` built on `insertNoArr`. -/
def collapseStackNoArr : List Frame → Json
  | [] => Json.obj []
  | top :: rest => collapseAuxNoArr top rest

/-- `nestJson` with the array branches of `insertJson` deleted. -/
def nestJsonNoArr (nodes : List FlatNode) : Json :=
  if nodes.isEmpty then Json.obj []
  else collapseStackNoArr (nestLoopNoArr [rootFrame] nodes)

/-- Every frame on the stack holds an object container. -/
def stackObjs (stack : List Frame) : Prop := ∀ f ∈ stack, f.isObjFrame = true

/-- Every frame on the stack holds an array-free container. -/
def stackArrFree (stack : List Frame) : Prop := ∀ f ∈ stack, f.obj.arrayFree = true

/-- Forget the (randomly generated) ids and the unset match flags of a row
sequence, keeping key, value and depth. -/
def eraseIds (nodes : List FlatNode) : List (String × Json × Int) :=
  nodes.map fun n => (n.key, n.value, n.depth)

mutual
/-- The id-free shape of `flattenJson`'s output: what the emitted rows look
like once the generated ids are forgotten. -/
def flattenShape : Json → Int → List (String × Json × Int)
  | .arr items, depth => shapeArray items 0 depth
  | .obj fields, depth => shapeFields fields depth
  | _, _ => []
termination_by j _ => sizeOf j

/-- Id-free shape of the array loop of `flattenJson`. -/
def shapeArray : List Json → Nat → Int → List (String × Json × Int)
  | [], _, _ => []
  | item :: rest, index, depth =>
    if item.typeofObject then
      ("[" ++ toString index ++ "]", Json.str "", depth) :: flattenShape item (depth + 1) ++
        shapeArray rest (index + 1) depth
    else
      ("[" ++ toString index ++ "]", item, depth) :: shapeArray rest (index + 1) depth
termination_by items _ _ => sizeOf items

/-- Id-free shape of the object loop of `flattenJson`. -/
def shapeFields : List (String × Json) → Int → List (String × Json × Int)
  | [], _ => []
  | (key, value) :: rest, depth =>
    if value.isObjOrArr then
      (key, Json.str "", depth) :: flattenShape value (depth + 1) ++ shapeFields rest depth
    else
      (key, value, depth) :: shapeFields rest depth
termination_by fields _ => sizeOf fields
end

/-- The rows `flattenJson` emits for an object all of whose members are
scalars: one leaf row per field, ids drawn in order. -/
def leafRowsAux (gen : Nat → String) : List (String × Json) → Int → Nat → List FlatNode
  | [], _, _ => []
  | (k, v) :: rest, d, ctr =>
    ⟨gen ctr, k, v, d, none⟩ :: leafRowsAux gen rest d (ctr + 1)

theorem leadsWith_iff (needle hay : List Char) :
    leadsWith needle hay = true ↔ ∃ post, hay = needle ++ post := by
  induction needle generalizing hay with
  | nil => simp [leadsWith]
  | cons a as ih =>
    cases hay with
    | nil =>
      simp [leadsWith]
    | cons b bs =>
      simp only [leadsWith, Bool.and_eq_true, beq_iff_eq, ih, List.cons_append]
      constructor
      · rintro ⟨rfl, post, rfl⟩; exact ⟨post, rfl⟩
      · rintro ⟨post, h⟩
        injection h with h1 h2
        exact ⟨h1.symm, post, h2⟩

theorem subOccurs_iff (needle hay : List Char) :
    subOccurs needle hay = true ↔ ∃ pre post, hay = pre ++ needle ++ post := by
  induction hay with
  | nil =>
    rw [subOccurs]
    simp only [Bool.or_false, leadsWith_iff]
    constructor
    · rintro ⟨post, h⟩
      exact ⟨[], post, by simpa using h⟩
    · rintro ⟨pre, post, h⟩
      rw [List.append_assoc] at h
      rcases List.append_eq_nil.1 h.symm with ⟨rfl, h2⟩
      exact ⟨post, by simpa using h2.symm⟩
  | cons c rest ih =>
    rw [subOccurs]
    simp only [Bool.or_eq_true, leadsWith_iff, ih]
    constructor
    · rintro (⟨post, h⟩ | ⟨pre, post, h⟩)
      · exact ⟨[], post, by simpa using h⟩
      · exact ⟨c :: pre, post, by simp [h]⟩
    · rintro ⟨pre, post, h⟩
      cases pre with
      | nil => exact Or.inl ⟨post, by simpa using h⟩
      | cons c' pre' =>
        injection h with h1 h2
        exact Or.inr ⟨pre', post, h2⟩

theorem strIncludes_iff (source sub : String) :
    strIncludes source sub = true ↔
      ∃ pre post, source.toList = pre ++ sub.toList ++ post :=
  subOccurs_iff sub.toList source.toList

/-- Claim C4: `checkMatch value source` is true iff the value is not a string, or
its (end-)trimmed form has zero length, or its trimmed form occurs as an exact
contiguous substring of `source`; consequently it is true for null, numbers,
booleans and the empty string regardless of the source. -/
theorem c4_checkMatch_characterization (value : Json) (source : String) :
    (checkMatch value source = true ↔
      ∀ s, value = Json.str s →
        (jsTrim s).length = 0 ∨
          ∃ pre post, source.toList = pre ++ (jsTrim s).toList ++ post) ∧
    checkMatch Json.null source = true ∧
    (∀ n, checkMatch (Json.num n) source = true) ∧
    (∀ b, checkMatch (Json.bool b) source = true) ∧
    checkMatch (Json.str "") source = true := by
  refine ⟨?_, rfl, fun _ => rfl, fun _ => rfl, rfl⟩
  cases value with
  | str s =>
    simp only [Json.str.injEq, forall_eq']
    rw [checkMatch]
    by_cases hs : s = ""
    · subst hs
      simp [jsTrim]
    · rw [if_neg hs]
      by_cases hlen : (jsTrim s).length = 0
      · simp [hlen]
      · simp only [if_neg hlen, strIncludes_iff]
        simp [hlen]
  | null => simp [checkMatch]
  | bool b => simp [checkMatch]
  | num n => simp [checkMatch]
  | arr items => simp [checkMatch]
  | obj fields => simp [checkMatch]

/-- Claim C8: structure-edit tokens parse as (number of leading `'#'`) − 1,
clamped to 0 when there is no leading `'#'`; rendering a depth with
`getHashTags` and re-parsing recovers the depth. -/
theorem c8_depth_token_roundtrip (d : Int) (hd : 0 ≤ d) :
    parseStructureDepth "###" = 2 ∧ parseStructureDepth "" = 0 ∧
    (∀ s : String, countLeadingHash s.toList = 0 → parseStructureDepth s = 0) ∧
    (∀ s : String, 0 ≤ parseStructureDepth s) ∧
    parseStructureDepth (getHashTags d) = d := by
  have peq : ∀ s : String, parseStructureDepth s =
      if countLeadingHash s.toList = 0 then 0 else (countLeadingHash s.toList : Int) - 1 :=
    fun _ => rfl
  refine ⟨by rfl, by rfl, ?_, ?_, ?_⟩
  · intro s h
    rw [peq, if_pos h]
  · intro s
    rw [peq]
    split
    · exact le_refl 0
    · omega
  · have hrep : ∀ n : Nat, countLeadingHash (List.replicate n '#') = n := by
      intro n
      induction n with
      | zero => rfl
      | succ k ih => simp [List.replicate, countLeadingHash, ih]
    simp only [parseStructureDepth, getHashTags]
    rw [show (String.mk (List.replicate (d + 1).toNat '#')).toList =
          List.replicate (d + 1).toNat '#' from rfl, hrep]
    rw [if_neg (by omega)]
    omega

theorem c8_wit : parseStructureDepth (getHashTags 3) = 3 :=
  (c8_depth_token_roundtrip 3 (by decide)).2.2.2.2

/-- Claim C7: flattening the array `["x", "y"]` yields exactly the two leaf rows
`([0], "x", depth 0)` and `([1], "y", depth 0)`, and nesting that sequence
yields the plain object `{"[0]": "x", "[1]": "y"}`, not an array. -/
theorem c7_array_flat_degradation :
    flattenTop (fun n => toString n) (Json.arr [Json.str "x", Json.str "y"]) =
      [⟨"0", "[0]", Json.str "x", 0, none⟩, ⟨"1", "[1]", Json.str "y", 0, none⟩] ∧
    nestJson [⟨"0", "[0]", Json.str "x", 0, none⟩, ⟨"1", "[1]", Json.str "y", 0, none⟩] =
      Json.obj [("[0]", Json.str "x"), ("[1]", Json.str "y")] := by
  constructor
  · simp only [flattenTop, flattenJson, flattenArray, Json.typeofObject]
    rfl
  · rfl

example : nestJson [⟨"i", "a", Json.str "x", 0, none⟩] = Json.obj [("a", Json.str "x")] := by
  rfl

example : nestJson [⟨"i", "a", Json.str "zz", 0, none⟩, ⟨"j", "b", Json.str "w", 1, none⟩] =
    Json.obj [("a", Json.obj [("b", Json.str "w")])] := by
  rfl

example : checkMatch (Json.str "hello world") "say hello world now" = true := by decide

example : checkMatch (Json.str "Hello") "hello" = false := by decide

example : parseStructureDepth "###" = 2 := by decide

example : flattenTop (fun n => toString n) (Json.arr [Json.str "x", Json.str "y"]) =
    [⟨"0", "[0]", Json.str "x", 0, none⟩, ⟨"1", "[1]", Json.str "y", 0, none⟩] := by
  simp only [flattenTop, flattenJson, flattenArray, Json.typeofObject]
  rfl

theorem flattenFields_scalar (gen : Nat → String) (fields : List (String × Json))
    (d : Int) (ctr : Nat) (h : ∀ p ∈ fields, p.2.isObjOrArr = false) :
    flattenFields gen fields d ctr = (leafRowsAux gen fields d ctr, ctr + fields.length) := by
  induction fields generalizing ctr with
  | nil => simp [flattenFields, leafRowsAux]
  | cons p rest ih =>
    obtain ⟨k, v⟩ := p
    have hv : v.isObjOrArr = false := h (k, v) (List.mem_cons_self _ _)
    have hrest : ∀ q ∈ rest, q.2.isObjOrArr = false :=
      fun q hq => h q (List.mem_cons_of_mem _ hq)
    rw [flattenFields]
    simp only [hv, Bool.false_eq_true, if_false, ih (ctr + 1) hrest, leafRowsAux]
    have : ctr + 1 + rest.length = ctr + (rest.length + 1) := by omega
    simp [this]

theorem leafRowsAux_mem_depth (gen : Nat → String) (fields : List (String × Json))
    (d : Int) (ctr : Nat) :
    ∀ n ∈ leafRowsAux gen fields d ctr, n.depth = d := by
  induction fields generalizing ctr with
  | nil => simp [leafRowsAux]
  | cons p rest ih =>
    obtain ⟨k, v⟩ := p
    intro n hn
    rw [leafRowsAux] at hn
    rcases List.mem_cons.1 hn with rfl | hn
    · rfl
    · exact ih (ctr + 1) n hn

theorem nestLoop_flat (nodes : List FlatNode) :
    ∀ acc : List (String × Json), (∀ n ∈ nodes, n.depth = 0) →
      nestLoop [⟨"", Json.obj acc, -1⟩] nodes =
        [⟨"", Json.obj (nodes.foldl (fun a n => assocSet a n.key n.value) acc), -1⟩] := by
  induction nodes with
  | nil => intro acc _; simp [nestLoop]
  | cons node rest ih =>
    intro acc h
    have hd : node.depth = 0 := h node (List.mem_cons_self _ _)
    cases rest with
    | nil =>
      rw [nestLoop]
      simp [popFrames, popAux, insertJson, nestLoop]
    | cons n2 rest' =>
      have hd2 : n2.depth = 0 := h n2 (by simp)
      rw [nestLoop]
      simp only [hd, hd2, popFrames, popAux, gt_iff_lt, lt_self_iff_false, decide_False,
        Bool.false_eq_true, if_false, insertJson]
      rw [ih (assocSet acc node.key node.value) (fun n hn => h n (List.mem_cons_of_mem _ hn))]
      simp [List.foldl_cons]

theorem foldl_leafRows (gen : Nat → String) (fields : List (String × Json)) (d : Int) :
    ∀ (ctr : Nat) (acc : List (String × Json)),
      (leafRowsAux gen fields d ctr).foldl (fun a n => assocSet a n.key n.value) acc =
        fields.foldl (fun a p => assocSet a p.1 p.2) acc := by
  induction fields with
  | nil => intro ctr acc; rfl
  | cons p rest ih =>
    intro ctr acc
    obtain ⟨k, v⟩ := p
    simp only [leafRowsAux, List.foldl_cons]
    exact ih (ctr + 1) (assocSet acc k v)

theorem assocSet_of_not_mem (acc : List (String × Json)) (k : String) (v : Json)
    (h : ∀ q ∈ acc, q.1 ≠ k) : assocSet acc k v = acc ++ [(k, v)] := by
  induction acc with
  | nil => rfl
  | cons q rest ih =>
    obtain ⟨k', w⟩ := q
    rw [assocSet, if_neg (h (k', w) (List.mem_cons_self _ _))]
    rw [ih (fun q hq => h q (List.mem_cons_of_mem _ hq))]
    rfl

theorem foldl_assocSet_append (fields : List (String × Json)) :
    ∀ acc : List (String × Json), (fields.map Prod.fst).Nodup →
      (∀ p ∈ fields, ∀ q ∈ acc, q.1 ≠ p.1) →
      fields.foldl (fun a p => assocSet a p.1 p.2) acc = acc ++ fields := by
  induction fields with
  | nil => intro acc _ _; simp
  | cons p rest ih =>
    intro acc hnodup hdisj
    obtain ⟨k, v⟩ := p
    simp only [List.map_cons, List.nodup_cons] at hnodup
    simp only [List.foldl_cons]
    rw [assocSet_of_not_mem acc k v (fun q hq => hdisj (k, v) (List.mem_cons_self _ _) q hq)]
    rw [ih (acc ++ [(k, v)]) hnodup.2 ?_]
    · simp
    · intro p hp q hq
      rcases List.mem_append.1 hq with hq | hq
      · exact hdisj p (List.mem_cons_of_mem _ hp) q hq
      · simp only [List.mem_singleton] at hq
        subst hq
        intro hk
        exact hnodup.1 (by rw [show k = p.1 from hk]; exact List.mem_map_of_mem Prod.fst hp)

/-- Claim C1: for an object all of whose member values are scalars or null
(no nested objects or arrays), `nestJson (flattenJson obj)` reproduces the
object exactly — same keys bound to the same values — including `{}`. -/
theorem c1_flat_object_roundtrip (gen : Nat → String) (fields : List (String × Json))
    (hnodup : (fields.map Prod.fst).Nodup)
    (hscalar : ∀ p ∈ fields, p.2.isObjOrArr = false) :
    nestJson (flattenTop gen (Json.obj fields)) = Json.obj fields := by
  have hflat : flattenTop gen (Json.obj fields) = leafRowsAux gen fields 0 0 := by
    rw [flattenTop, flattenJson, flattenFields_scalar gen fields 0 0 hscalar]
  rw [hflat]
  cases fields with
  | nil => rfl
  | cons p rest =>
    obtain ⟨k, v⟩ := p
    rw [nestJson, if_neg (by simp [leafRowsAux])]
    have hroot : [rootFrame] = [(⟨"", Json.obj [], -1⟩ : Frame)] := rfl
    rw [hroot, nestLoop_flat _ [] (leafRowsAux_mem_depth gen _ 0 0)]
    rw [collapseStack, collapseAux]
    rw [foldl_leafRows, foldl_assocSet_append _ [] hnodup (by simp)]
    rfl

theorem c1_wit :
    nestJson (flattenTop (fun _ => "i") (Json.obj [("a", Json.num 1), ("b", Json.null)])) =
      Json.obj [("a", Json.num 1), ("b", Json.null)] :=
  c1_flat_object_roundtrip _ _ (by decide) (by decide)

theorem nestLoop_cons (stack : List Frame) (node : FlatNode) (rest : List FlatNode) :
    nestLoop stack (node :: rest) =
      if (match rest with
          | nextNode :: _ => decide (nextNode.depth > node.depth)
          | [] => false) then
        nestLoop ({ key := node.key, obj := Json.obj [], depth := node.depth } ::
          popFrames stack node.depth) rest
      else
        match popFrames stack node.depth with
        | parentF :: rest1 =>
          nestLoop ({ parentF with obj := insertJson parentF.obj node.key node.value } :: rest1) rest
        | [] => nestLoop [] rest :=
  rfl

theorem nestLoop_step_deeper (stack : List Frame) (node next : FlatNode)
    (rest : List FlatNode) (h : node.depth < next.depth) :
    nestLoop stack (node :: next :: rest) =
      nestLoop ({ key := node.key, obj := Json.obj [], depth := node.depth } ::
        popFrames stack node.depth) (next :: rest) := by
  rw [nestLoop_cons]
  simp only [gt_iff_lt, decide_eq_true_eq]
  rw [if_pos h]

theorem nestLoop_step_shallow (stack : List Frame) (node next : FlatNode)
    (rest : List FlatNode) (h : next.depth ≤ node.depth) :
    nestLoop stack (node :: next :: rest) =
      match popFrames stack node.depth with
      | parentF :: rest1 =>
        nestLoop ({ parentF with obj := insertJson parentF.obj node.key node.value } :: rest1)
          (next :: rest)
      | [] => nestLoop [] (next :: rest) := by
  rw [nestLoop_cons]
  simp only [gt_iff_lt, decide_eq_true_eq]
  rw [if_neg (not_lt.mpr h)]

theorem nestLoop_step_last (stack : List Frame) (node : FlatNode) :
    nestLoop stack [node] =
      match popFrames stack node.depth with
      | parentF :: rest1 =>
        { parentF with obj := insertJson parentF.obj node.key node.value } :: rest1
      | [] => [] := by
  rw [nestLoop_cons]
  simp only [Bool.false_eq_true, if_false]
  cases popFrames stack node.depth with
  | nil => rfl
  | cons f r => rfl

theorem nestLoop_value_lookahead (a b : FlatNode) (v : Json) (post : List FlatNode)
    (hd : a.depth < b.depth) :
    ∀ (pre : List FlatNode) (stack : List Frame),
      nestLoop stack (pre ++ { a with value := v } :: b :: post) =
        nestLoop stack (pre ++ a :: b :: post) := by
  intro pre
  induction pre with
  | nil =>
    intro stack
    rw [List.nil_append, List.nil_append]
    rw [nestLoop_step_deeper stack _ b post (by exact hd)]
    rw [nestLoop_step_deeper stack a b post hd]
  | cons p pre' ih =>
    intro stack
    cases pre' with
    | nil =>
      simp only [List.cons_append, List.nil_append] at ih ⊢
      by_cases hc : p.depth < a.depth
      · rw [nestLoop_step_deeper stack p _ (b :: post) (by exact hc)]
        rw [nestLoop_step_deeper stack p a (b :: post) hc]
        exact ih _
      · rw [nestLoop_step_shallow stack p _ (b :: post) (by exact not_lt.1 hc)]
        rw [nestLoop_step_shallow stack p a (b :: post) (not_lt.1 hc)]
        cases popFrames stack p.depth with
        | nil => exact ih _
        | cons f r => exact ih _
    | cons q pre'' =>
      simp only [List.cons_append] at ih ⊢
      by_cases hc : p.depth < q.depth
      · rw [nestLoop_step_deeper stack p q _ hc, nestLoop_step_deeper stack p q _ hc]
        exact ih _
      · rw [nestLoop_step_shallow stack p q _ (not_lt.1 hc),
          nestLoop_step_shallow stack p q _ (not_lt.1 hc)]
        cases popFrames stack p.depth with
        | nil => exact ih _
        | cons f r => exact ih _

theorem nestJson_pair_deeper (a b : FlatNode) (hd : a.depth < b.depth) :
    nestJson [a, b] = Json.obj [(a.key, Json.obj [(b.key, b.value)])] := by
  rw [nestJson, if_neg (by simp)]
  rw [nestLoop_step_deeper [rootFrame] a b [] hd]
  rw [nestLoop_step_last]
  simp [popFrames, popAux, not_le.mpr hd, insertJson, assocSet,
    collapseStack, collapseAux, rootFrame]

theorem nestJson_single (c : FlatNode) : nestJson [c] = Json.obj [(c.key, c.value)] := by
  rfl

theorem nestJson_pair_not_deeper (c d : FlatNode) (h : d.depth ≤ c.depth) :
    nestJson [c, d] = Json.obj (assocSet [(c.key, c.value)] d.key d.value) := by
  rw [nestJson, if_neg (by simp)]
  rw [nestLoop_step_shallow [rootFrame] c d [] h]
  simp [popFrames, popAux, insertJson, assocSet, nestLoop_step_last,
    collapseStack, collapseAux, rootFrame]

/-- Claim C2: `nestJson` decides container-ness purely by lookahead, never by the
row's value: a row followed by a strictly deeper row becomes a fresh empty
object under its key (whatever its value was), with the next row attached
inside; a row whose successor is absent or not deeper is attached as a leaf
carrying its value. -/
theorem c2_lookahead_container_detection (a b : FlatNode) (v : Json) (hd : a.depth < b.depth) :
    (nestJson [a, b] = Json.obj [(a.key, Json.obj [(b.key, b.value)])]) ∧
    (∀ (pre post : List FlatNode),
      nestJson (pre ++ { a with value := v } :: b :: post) =
        nestJson (pre ++ a :: b :: post)) ∧
    (∀ c : FlatNode, nestJson [c] = Json.obj [(c.key, c.value)]) ∧
    (∀ c d : FlatNode, d.depth ≤ c.depth →
      nestJson [c, d] = Json.obj (assocSet [(c.key, c.value)] d.key d.value)) := by
  refine ⟨nestJson_pair_deeper a b hd, ?_, nestJson_single, nestJson_pair_not_deeper⟩
  intro pre post
  rw [nestJson, nestJson, if_neg (by simp), if_neg (by simp)]
  exact congrArg collapseStack (nestLoop_value_lookahead a b v post hd pre [rootFrame])

theorem c2_wit :
    nestJson [⟨"i", "a", Json.str "zz", 0, none⟩, ⟨"j", "b", Json.str "w", 1, none⟩] =
      Json.obj [("a", Json.obj [("b", Json.str "w")])] :=
  (c2_lookahead_container_detection ⟨"i", "a", Json.str "zz", 0, none⟩
    ⟨"j", "b", Json.str "w", 1, none⟩ Json.null (by decide)).1

theorem isObjFrame_merge (parent : Frame) (k : String) (o : Json)
    (h : parent.isObjFrame = true) :
    ({ parent with obj := insertJson parent.obj k o } : Frame).isObjFrame = true := by
  unfold Frame.isObjFrame at h ⊢
  cases hobj : parent.obj <;> rw [hobj] at h <;> simp_all [insertJson]

theorem rootGood_nonempty {stack : List Frame} (h : rootGood stack) : stack ≠ [] := by
  obtain ⟨f, hf, _⟩ := h
  intro he
  rw [he] at hf
  simp at hf

theorem rootGood_cons {l : List Frame} (x : Frame) (h : rootGood l) : rootGood (x :: l) := by
  obtain ⟨f, hf, hd, ho⟩ := h
  refine ⟨f, ?_, hd, ho⟩
  cases l with
  | nil => simp at hf
  | cons y t => rw [List.getLast?_cons_cons]; exact hf

theorem rootGood_merge {parent : Frame} {rest : List Frame} (k : String) (o : Json)
    (h : rootGood (parent :: rest)) :
    rootGood ({ parent with obj := insertJson parent.obj k o } :: rest) := by
  cases rest with
  | nil =>
    obtain ⟨f, hf, hd, ho⟩ := h
    simp only [List.getLast?_singleton, Option.some.injEq] at hf
    subst hf
    exact ⟨_, rfl, hd, isObjFrame_merge parent k o ho⟩
  | cons y t =>
    obtain ⟨f, hf, hd, ho⟩ := h
    rw [List.getLast?_cons_cons] at hf
    exact ⟨f, by rw [List.getLast?_cons_cons]; exact hf, hd, ho⟩

theorem rootGood_drop_top {top parent : Frame} {rest : List Frame}
    (h : rootGood (top :: parent :: rest)) : rootGood (parent :: rest) := by
  obtain ⟨f, hf, hd, ho⟩ := h
  rw [List.getLast?_cons_cons] at hf
  exact ⟨f, hf, hd, ho⟩

theorem rootGood_popAux : ∀ (rest : List Frame) (top : Frame) (d : Int),
    rootGood (top :: rest) → rootGood (popAux top rest d) := by
  intro rest
  induction rest with
  | nil =>
    intro top d h
    rw [popAux]
    exact h
  | cons parent rest' ih =>
    intro top d h
    rw [popAux]
    split
    · exact ih _ d (rootGood_merge top.key top.obj (rootGood_drop_top h))
    · exact h

theorem rootGood_popFrames (stack : List Frame) (d : Int) (h : rootGood stack) :
    rootGood (popFrames stack d) := by
  cases stack with
  | nil => exact absurd rfl (rootGood_nonempty h)
  | cons top rest => exact rootGood_popAux rest top d h

theorem rootGood_nestLoop (nodes : List FlatNode) : ∀ stack : List Frame,
    rootGood stack → rootGood (nestLoop stack nodes) := by
  induction nodes with
  | nil => intro stack h; exact h
  | cons node rest ih =>
    intro stack h
    rw [nestLoop_cons]
    have h1 : rootGood (popFrames stack node.depth) := rootGood_popFrames stack node.depth h
    split
    · exact ih _ (rootGood_cons _ h1)
    · cases hs : popFrames stack node.depth with
      | nil => rw [hs] at h1; exact absurd rfl (rootGood_nonempty h1)
      | cons parentF rest1 =>
        rw [hs] at h1
        exact ih _ (rootGood_merge node.key node.value h1)

theorem collapseAux_obj : ∀ (rest : List Frame) (top : Frame),
    rootGood (top :: rest) → ∃ fs, collapseAux top rest = Json.obj fs := by
  intro rest
  induction rest with
  | nil =>
    intro top h
    obtain ⟨f, hf, _, ho⟩ := h
    simp only [List.getLast?_singleton, Option.some.injEq] at hf
    subst hf
    rw [collapseAux]
    unfold Frame.isObjFrame at ho
    cases hobj : top.obj <;> rw [hobj] at ho <;> simp_all
  | cons parent rest' ih =>
    intro top h
    rw [collapseAux]
    exact ih _ (rootGood_merge top.key top.obj (rootGood_drop_top h))

/-- Claim C5: `nestJson` is total — the empty sequence yields the empty object,
every sequence yields an object rooted at the never-popped sentinel, and
depth jumps of more than one are handled by attaching to whatever ancestor
remains on the stack. -/
theorem c5_nest_total (nodes : List FlatNode) :
    nestJson [] = Json.obj [] ∧
    (∃ fields, nestJson nodes = Json.obj fields) ∧
    (∃ f, (nestLoop [rootFrame] nodes).getLast? = some f ∧ f.depth = -1) ∧
    nestJson [⟨"i1", "a", Json.str "", 0, none⟩, ⟨"i2", "b", Json.str "", 3, none⟩,
        ⟨"i3", "c", Json.str "v", 4, none⟩, ⟨"i4", "d", Json.str "w", 1, none⟩] =
      Json.obj [("a", Json.obj [("b", Json.obj [("c", Json.str "v")]), ("d", Json.str "w")])] := by
  have hroot : rootGood [rootFrame] := ⟨rootFrame, rfl, rfl, rfl⟩
  have hgood := rootGood_nestLoop nodes [rootFrame] hroot
  refine ⟨rfl, ?_, ?_, by rfl⟩
  · by_cases h : nodes.isEmpty
    · rw [nestJson, if_pos h]; exact ⟨[], rfl⟩
    · rw [nestJson, if_neg h]
      cases hs : nestLoop [rootFrame] nodes with
      | nil => rw [hs] at hgood; exact absurd rfl (rootGood_nonempty hgood)
      | cons top rest =>
        rw [hs] at hgood
        rw [collapseStack]
        exact collapseAux_obj rest top hgood
  · obtain ⟨f, hf, hd, _⟩ := hgood
    exact ⟨f, hf, hd⟩

theorem nestLoopNoArr_cons (stack : List Frame) (node : FlatNode) (rest : List FlatNode) :
    nestLoopNoArr stack (node :: rest) =
      if (match rest with
          | nextNode :: _ => decide (nextNode.depth > node.depth)
          | [] => false) then
        nestLoopNoArr ({ key := node.key, obj := Json.obj [], depth := node.depth } ::
          popFramesNoArr stack node.depth) rest
      else
        match popFramesNoArr stack node.depth with
        | parentF :: rest1 =>
          nestLoopNoArr ({ parentF with obj := insertNoArr parentF.obj node.key node.value } ::
            rest1) rest
        | [] => nestLoopNoArr [] rest :=
  rfl

theorem isObjFrame_exists {f : Frame} (h : f.isObjFrame = true) : ∃ fs, f.obj = Json.obj fs := by
  unfold Frame.isObjFrame at h
  cases hobj : f.obj <;> rw [hobj] at h <;> simp_all

theorem stackObjs_nil : stackObjs [] := fun f hf => absurd hf (List.not_mem_nil f)

theorem stackObjs_cons {stack : List Frame} {x : Frame} (hx : x.isObjFrame = true)
    (h : stackObjs stack) : stackObjs (x :: stack) := by
  intro f hf
  rcases List.mem_cons.1 hf with rfl | hf
  · exact hx
  · exact h f hf

theorem popAux_noArr : ∀ (rest : List Frame) (top : Frame) (d : Int),
    stackObjs (top :: rest) →
    popAux top rest d = popAuxNoArr top rest d ∧ stackObjs (popAux top rest d) := by
  intro rest
  induction rest with
  | nil =>
    intro top d h
    exact ⟨rfl, h⟩
  | cons parent rest' ih =>
    intro top d h
    have htop : top.isObjFrame = true := h top (List.mem_cons_self _ _)
    have hparent : parent.isObjFrame = true := h parent (by simp)
    have hrest : stackObjs rest' := fun f hf => h f (by simp [hf])
    rw [popAux, popAuxNoArr]
    by_cases hc : top.depth ≥ d
    · rw [if_pos hc, if_pos hc]
      obtain ⟨fs, hfs⟩ := isObjFrame_exists hparent
      rw [hfs]
      exact ih _ d (stackObjs_cons (by unfold Frame.isObjFrame; simp [insertJson]) hrest)
    · rw [if_neg hc, if_neg hc]
      exact ⟨rfl, h⟩

theorem popFrames_noArr (stack : List Frame) (d : Int) (h : stackObjs stack) :
    popFrames stack d = popFramesNoArr stack d ∧ stackObjs (popFrames stack d) := by
  cases stack with
  | nil => exact ⟨rfl, stackObjs_nil⟩
  | cons top rest => exact popAux_noArr rest top d h

theorem nestLoop_noArr (nodes : List FlatNode) : ∀ stack : List Frame, stackObjs stack →
    nestLoop stack nodes = nestLoopNoArr stack nodes ∧ stackObjs (nestLoop stack nodes) := by
  induction nodes with
  | nil => intro stack h; exact ⟨rfl, h⟩
  | cons node rest ih =>
    intro stack h
    obtain ⟨hpf, hobjs1⟩ := popFrames_noArr stack node.depth h
    rw [nestLoop_cons, nestLoopNoArr_cons, ← hpf]
    cases hb : (match rest with
        | nextNode :: _ => decide (nextNode.depth > node.depth)
        | [] => false) with
    | true =>
      rw [if_pos rfl, if_pos rfl]
      exact ih _ (stackObjs_cons rfl hobjs1)
    | false =>
      rw [if_neg (by simp), if_neg (by simp)]
      cases hs : popFrames stack node.depth with
      | nil => exact ih [] stackObjs_nil
      | cons parentF rest1 =>
        rw [hs] at hobjs1
        have hpF : parentF.isObjFrame = true := hobjs1 parentF (List.mem_cons_self _ _)
        have hr1 : stackObjs rest1 := fun f hf => hobjs1 f (by simp [hf])
        obtain ⟨fs, hfs⟩ := isObjFrame_exists hpF
        change (nestLoop ({ parentF with obj := insertJson parentF.obj node.key node.value } ::
              rest1) rest =
            nestLoopNoArr ({ parentF with obj := insertNoArr parentF.obj node.key node.value } ::
              rest1) rest) ∧
          stackObjs (nestLoop ({ parentF with
            obj := insertJson parentF.obj node.key node.value } :: rest1) rest)
        rw [hfs]
        simp only [insertJson, insertNoArr]
        exact ih _ (stackObjs_cons rfl hr1)

theorem collapseAux_noArr : ∀ (rest : List Frame) (top : Frame),
    stackObjs (top :: rest) → collapseAux top rest = collapseAuxNoArr top rest := by
  intro rest
  induction rest with
  | nil => intro top _; rfl
  | cons parent rest' ih =>
    intro top h
    have hparent : parent.isObjFrame = true := h parent (by simp)
    have hrest : stackObjs rest' := fun f hf => h f (by simp [hf])
    rw [collapseAux, collapseAuxNoArr]
    obtain ⟨fs, hfs⟩ := isObjFrame_exists hparent
    rw [hfs]
    exact ih _ (stackObjs_cons (by unfold Frame.isObjFrame; simp [insertJson]) hrest)

theorem stackObjs_root : stackObjs [rootFrame] := by
  intro f hf
  simp only [List.mem_singleton] at hf
  subst hf
  rfl

theorem nestJson_eq_noArr (nodes : List FlatNode) : nestJson nodes = nestJsonNoArr nodes := by
  rw [nestJson, nestJsonNoArr]
  by_cases h : nodes.isEmpty
  · rw [if_pos h, if_pos h]
  · rw [if_neg h, if_neg h]
    obtain ⟨heq, hpres⟩ := nestLoop_noArr nodes [rootFrame] stackObjs_root
    rw [← heq]
    cases hs : nestLoop [rootFrame] nodes with
    | nil => rfl
    | cons top rest =>
      rw [hs] at hpres
      rw [collapseStack, collapseStackNoArr]
      exact collapseAux_noArr rest top hpres

theorem arrayFree_obj (fields : List (String × Json)) :
    (Json.obj fields).arrayFree = arrayFreeFields fields := by
  rw [Json.arrayFree]

theorem arrayFreeFields_assocSet (fields : List (String × Json)) (k : String) (v : Json)
    (hf : arrayFreeFields fields = true) (hv : v.arrayFree = true) :
    arrayFreeFields (assocSet fields k v) = true := by
  induction fields with
  | nil =>
    rw [assocSet, arrayFreeFields, arrayFreeFields]
    simp [hv]
  | cons p rest ih =>
    obtain ⟨k', w⟩ := p
    rw [arrayFreeFields, Bool.and_eq_true] at hf
    rw [assocSet]
    by_cases hk : k' = k
    · rw [if_pos hk, arrayFreeFields]
      simp [hv, hf.2]
    · rw [if_neg hk, arrayFreeFields]
      simp [hf.1, ih hf.2]

theorem stackArrFree_nil : stackArrFree [] := fun f hf => absurd hf (List.not_mem_nil f)

theorem stackArrFree_cons {stack : List Frame} {x : Frame} (hx : x.obj.arrayFree = true)
    (h : stackArrFree stack) : stackArrFree (x :: stack) := by
  intro f hf
  rcases List.mem_cons.1 hf with rfl | hf
  · exact hx
  · exact h f hf

theorem arrayFree_objNil : (Json.obj []).arrayFree = true := by
  rw [arrayFree_obj, arrayFreeFields]

theorem stackArrFree_root : stackArrFree [rootFrame] := by
  intro f hf
  simp only [List.mem_singleton] at hf
  subst hf
  exact arrayFree_objNil

theorem popAux_arrFree : ∀ (rest : List Frame) (top : Frame) (d : Int),
    stackObjs (top :: rest) → stackArrFree (top :: rest) →
    stackArrFree (popAux top rest d) := by
  intro rest
  induction rest with
  | nil => intro top d _ ha; exact ha
  | cons parent rest' ih =>
    intro top d ho ha
    have hparent : parent.isObjFrame = true := ho parent (by simp)
    have htopA : top.obj.arrayFree = true := ha top (List.mem_cons_self _ _)
    have hparA : parent.obj.arrayFree = true := ha parent (by simp)
    have hrestO : stackObjs rest' := fun f hf => ho f (by simp [hf])
    have hrestA : stackArrFree rest' := fun f hf => ha f (by simp [hf])
    obtain ⟨fs, hfs⟩ := isObjFrame_exists hparent
    rw [popAux]
    by_cases hc : top.depth ≥ d
    · rw [if_pos hc, hfs]
      simp only [insertJson]
      refine ih _ d (stackObjs_cons rfl hrestO) (stackArrFree_cons ?_ hrestA)
      rw [arrayFree_obj]
      apply arrayFreeFields_assocSet
      · rw [hfs, arrayFree_obj] at hparA; exact hparA
      · exact htopA
    · rw [if_neg hc]; exact ha

theorem popFrames_arrFree (stack : List Frame) (d : Int)
    (ho : stackObjs stack) (ha : stackArrFree stack) :
    stackArrFree (popFrames stack d) := by
  cases stack with
  | nil => exact stackArrFree_nil
  | cons top rest => exact popAux_arrFree rest top d ho ha

theorem nestLoop_arrFree (nodes : List FlatNode) : ∀ stack : List Frame,
    (∀ n ∈ nodes, n.value.arrayFree = true) → stackObjs stack → stackArrFree stack →
    stackArrFree (nestLoop stack nodes) := by
  induction nodes with
  | nil => intro stack _ _ ha; exact ha
  | cons node rest ih =>
    intro stack hvals ho ha
    have ho1 := (popFrames_noArr stack node.depth ho).2
    have ha1 := popFrames_arrFree stack node.depth ho ha
    have hvals' : ∀ n ∈ rest, n.value.arrayFree = true := fun n hn => hvals n (by simp [hn])
    rw [nestLoop_cons]
    cases hb : (match rest with
        | nextNode :: _ => decide (nextNode.depth > node.depth)
        | [] => false) with
    | true =>
      rw [if_pos rfl]
      exact ih _ hvals' (stackObjs_cons rfl ho1) (stackArrFree_cons arrayFree_objNil ha1)
    | false =>
      rw [if_neg (by simp)]
      cases hs : popFrames stack node.depth with
      | nil => exact ih [] hvals' stackObjs_nil stackArrFree_nil
      | cons parentF rest1 =>
        rw [hs] at ho1 ha1
        have hpF := ho1 parentF (List.mem_cons_self _ _)
        obtain ⟨fs, hfs⟩ := isObjFrame_exists hpF
        change stackArrFree (nestLoop ({ parentF with
          obj := insertJson parentF.obj node.key node.value } :: rest1) rest)
        rw [hfs]
        simp only [insertJson]
        refine ih _ hvals' (stackObjs_cons rfl (fun f hf => ho1 f (by simp [hf])))
          (stackArrFree_cons ?_ (fun f hf => ha1 f (by simp [hf])))
        rw [arrayFree_obj]
        apply arrayFreeFields_assocSet
        · have hA := ha1 parentF (List.mem_cons_self _ _)
          rw [hfs, arrayFree_obj] at hA
          exact hA
        · exact hvals node (List.mem_cons_self _ _)

theorem collapseAux_arrFree : ∀ (rest : List Frame) (top : Frame),
    stackObjs (top :: rest) → stackArrFree (top :: rest) →
    (collapseAux top rest).arrayFree = true := by
  intro rest
  induction rest with
  | nil =>
    intro top _ ha
    rw [collapseAux]
    exact ha top (List.mem_cons_self _ _)
  | cons parent rest' ih =>
    intro top ho ha
    have hparent : parent.isObjFrame = true := ho parent (by simp)
    obtain ⟨fs, hfs⟩ := isObjFrame_exists hparent
    rw [collapseAux, hfs]
    simp only [insertJson]
    refine ih _ (stackObjs_cons rfl (fun f hf => ho f (by simp [hf])))
      (stackArrFree_cons ?_ (fun f hf => ha f (by simp [hf])))
    rw [arrayFree_obj]
    apply arrayFreeFields_assocSet
    · have hA := ha parent (by simp)
      rw [hfs, arrayFree_obj] at hA
      exact hA
    · exact ha top (List.mem_cons_self _ _)

theorem scalar_arrayFree (v : Json) (h : v.isObjOrArr = false) : v.arrayFree = true := by
  cases v <;> simp_all [Json.isObjOrArr, Json.arrayFree]

/-- Claim C10: `nestJson` never builds an array: its root and every container it
creates are plain objects, so the append-to-array branches are dead code
(deleting them yields the same function), and on any row sequence whose values
are scalars or null (the FlatNode data model) the result contains no array
anywhere. -/
theorem c10_no_arrays (nodes : List FlatNode)
    (hscalar : ∀ n ∈ nodes, n.value.isObjOrArr = false) :
    (∀ ns : List FlatNode, nestJson ns = nestJsonNoArr ns) ∧
    (nestJson nodes).arrayFree = true := by
  refine ⟨nestJson_eq_noArr, ?_⟩
  by_cases h : nodes.isEmpty
  · rw [nestJson, if_pos h]
    exact arrayFree_objNil
  · rw [nestJson, if_neg h]
    have hvals : ∀ n ∈ nodes, n.value.arrayFree = true :=
      fun n hn => scalar_arrayFree n.value (hscalar n hn)
    have ho := (nestLoop_noArr nodes [rootFrame] stackObjs_root).2
    have ha := nestLoop_arrFree nodes [rootFrame] hvals stackObjs_root stackArrFree_root
    cases hs : nestLoop [rootFrame] nodes with
    | nil => rw [collapseStack]; exact arrayFree_objNil
    | cons top rest =>
      rw [hs] at ho ha
      rw [collapseStack]
      exact collapseAux_arrFree rest top ho ha

theorem c10_wit : (nestJson [⟨"i", "a", Json.str "x", 0, none⟩]).arrayFree = true :=
  (c10_no_arrays [⟨"i", "a", Json.str "x", 0, none⟩] (by decide)).2

/-- Claim C9: a row-level edit (structure, key or value) applied to the row with
a given id leaves every other row unchanged and preserves every row's id; and
structure and key edits leave every row's `isMatch` — including the edited
row's — unchanged. -/
theorem c9_edit_frame (nodes : List FlatNode) (sourceText : String)
    (id value ty : String) (i : Nat) :
    ((handleRowChange nodes sourceText id value ty).length = nodes.length) ∧
    (∀ j : Nat, (∀ n, nodes[j]? = some n → n.id ≠ id) →
      (handleRowChange nodes sourceText id value ty)[j]? = nodes[j]?) ∧
    (((handleRowChange nodes sourceText id value ty)[i]?).map FlatNode.id =
      (nodes[i]?).map FlatNode.id) ∧
    ((ty = "structure" ∨ ty = "key") →
      ((handleRowChange nodes sourceText id value ty)[i]?).map FlatNode.isMatch =
        (nodes[i]?).map FlatNode.isMatch) := by
  unfold handleRowChange
  refine ⟨List.length_map _ _, ?_, ?_, ?_⟩
  · intro j hj
    rw [List.getElem?_map]
    cases hn : nodes[j]? with
    | none => rfl
    | some n =>
      have hid : n.id ≠ id := hj n hn
      simp [hid]
  · rw [List.getElem?_map]
    cases hn : nodes[i]? with
    | none => rfl
    | some n =>
      simp only [Option.map_some']
      split_ifs <;> rfl
  · intro hty
    rw [List.getElem?_map]
    cases hn : nodes[i]? with
    | none => rfl
    | some n =>
      simp only [Option.map_some']
      by_cases h1 : n.id ≠ id
      · rw [if_pos h1]
      · rw [if_neg h1]
        rcases hty with h2 | h2
        · rw [if_pos h2]
        · rw [if_neg (by rw [h2]; decide), if_pos h2]

theorem c9_wit :
    (handleRowChange [⟨"i", "a", Json.str "x", 0, none⟩] "src" "i" "##" "structure").length = 1 :=
  (c9_edit_frame [⟨"i", "a", Json.str "x", 0, none⟩] "src" "i" "##" "structure" 0).1

/-- Counterexample to claim C3 as stated: an object member whose value is the
empty array, and an array element equal to null, each produce a container row
carrying the empty marker `""` — not a leaf row carrying the member's value. -/
theorem c3_cex :
    ((flattenTop (fun _ => "i") (Json.obj [("a", Json.arr [])])).map FlatNode.value =
        [Json.str ""] ∧
      Json.str "" ≠ Json.arr []) ∧
    ((flattenTop (fun _ => "i") (Json.arr [Json.null])).map FlatNode.value =
        [Json.str ""] ∧
      Json.str "" ≠ Json.null) := by
  refine ⟨⟨?_, fun h => Json.noConfusion h⟩, ?_, fun h => Json.noConfusion h⟩
  · simp only [flattenTop, flattenJson, flattenFields, flattenArray, Json.isObjOrArr]
    rfl
  · simp only [flattenTop, flattenJson, flattenFields, flattenArray, Json.typeofObject]
    rfl

/-- Claim C3 amended: `flattenJson` emits a container row (empty-marker value)
followed by the flattening of the child at depth+1 exactly when an object
member's value is an object or an array (empty or not), and — for array
elements — when the element is an object, an array, or null (JS
`typeof null === 'object'`); every other value yields exactly one leaf row
carrying that value.  In particular an empty-array member and a null array
element each produce a container row, not a leaf row. -/
theorem c3_container_classification (gen : Nat → String) (k : String) (v item : Json)
    (fields : List (String × Json)) (items : List Json) (idx : Nat) (d : Int) (ctr : Nat) :
    (flattenFields gen ((k, v) :: fields) d ctr =
      if v.isObjOrArr then
        (⟨gen ctr, k, Json.str "", d, none⟩ :: (flattenJson gen v (d + 1) (ctr + 1)).1 ++
            (flattenFields gen fields d (flattenJson gen v (d + 1) (ctr + 1)).2).1,
          (flattenFields gen fields d (flattenJson gen v (d + 1) (ctr + 1)).2).2)
      else
        (⟨gen ctr, k, v, d, none⟩ :: (flattenFields gen fields d (ctr + 1)).1,
          (flattenFields gen fields d (ctr + 1)).2)) ∧
    (flattenArray gen (item :: items) idx d ctr =
      if item.typeofObject then
        (⟨gen ctr, "[" ++ toString idx ++ "]", Json.str "", d, none⟩ ::
            (flattenJson gen item (d + 1) (ctr + 1)).1 ++
            (flattenArray gen items (idx + 1) d (flattenJson gen item (d + 1) (ctr + 1)).2).1,
          (flattenArray gen items (idx + 1) d (flattenJson gen item (d + 1) (ctr + 1)).2).2)
      else
        (⟨gen ctr, "[" ++ toString idx ++ "]", item, d, none⟩ ::
            (flattenArray gen items (idx + 1) d (ctr + 1)).1,
          (flattenArray gen items (idx + 1) d (ctr + 1)).2)) ∧
    Json.isObjOrArr (Json.arr []) = true ∧
    Json.typeofObject Json.null = true ∧
    flattenTop gen (Json.obj [("a", Json.arr [])]) = [⟨gen 0, "a", Json.str "", 0, none⟩] ∧
    flattenTop gen (Json.arr [Json.null]) = [⟨gen 0, "[0]", Json.str "", 0, none⟩] := by
  refine ⟨?_, ?_, rfl, rfl, ?_, ?_⟩
  · rw [flattenFields]
  · rw [flattenArray]
  · simp only [flattenTop, flattenJson, flattenFields, flattenArray, Json.isObjOrArr]
    rfl
  · simp only [flattenTop, flattenJson, flattenFields, flattenArray, Json.typeofObject]
    rfl

theorem eraseIds_nil : eraseIds [] = [] := rfl

theorem eraseIds_cons (n : FlatNode) (l : List FlatNode) :
    eraseIds (n :: l) = (n.key, n.value, n.depth) :: eraseIds l := rfl

theorem eraseIds_append (l₁ l₂ : List FlatNode) :
    eraseIds (l₁ ++ l₂) = eraseIds l₁ ++ eraseIds l₂ :=
  List.map_append _ _ _

mutual
theorem flattenJson_shape (gen : Nat → String) (data : Json) (d : Int) (ctr : Nat) :
    eraseIds (flattenJson gen data d ctr).1 = flattenShape data d := by
  cases data with
  | arr items =>
    rw [flattenJson, flattenShape]
    exact flattenArray_shape gen items 0 d ctr
  | obj fields =>
    rw [flattenJson, flattenShape]
    exact flattenFields_shape gen fields d ctr
  | null => simp [flattenJson, flattenShape, eraseIds]
  | bool b => simp [flattenJson, flattenShape, eraseIds]
  | num n => simp [flattenJson, flattenShape, eraseIds]
  | str s => simp [flattenJson, flattenShape, eraseIds]
termination_by sizeOf data

theorem flattenArray_shape (gen : Nat → String) (items : List Json) (index : Nat)
    (d : Int) (ctr : Nat) :
    eraseIds (flattenArray gen items index d ctr).1 = shapeArray items index d := by
  cases items with
  | nil => simp [flattenArray, shapeArray, eraseIds]
  | cons item rest =>
    rw [flattenArray, shapeArray]
    by_cases hc : item.typeofObject = true
    · rw [if_pos hc, if_pos hc]
      show eraseIds (⟨gen ctr, "[" ++ toString index ++ "]", Json.str "", d, none⟩ ::
          (flattenJson gen item (d + 1) (ctr + 1)).1 ++
          (flattenArray gen rest (index + 1) d (flattenJson gen item (d + 1) (ctr + 1)).2).1) = _
      simp only [eraseIds_cons, eraseIds_append]
      rw [flattenJson_shape gen item (d + 1) (ctr + 1)]
      rw [flattenArray_shape gen rest (index + 1) d (flattenJson gen item (d + 1) (ctr + 1)).2]
    · rw [if_neg hc, if_neg hc]
      show eraseIds (⟨gen ctr, "[" ++ toString index ++ "]", item, d, none⟩ ::
          (flattenArray gen rest (index + 1) d (ctr + 1)).1) = _
      simp only [eraseIds_cons]
      rw [flattenArray_shape gen rest (index + 1) d (ctr + 1)]
termination_by sizeOf items

theorem flattenFields_shape (gen : Nat → String) (fields : List (String × Json))
    (d : Int) (ctr : Nat) :
    eraseIds (flattenFields gen fields d ctr).1 = shapeFields fields d := by
  cases fields with
  | nil => simp [flattenFields, shapeFields, eraseIds]
  | cons p rest =>
    obtain ⟨key, value⟩ := p
    rw [flattenFields, shapeFields]
    by_cases hc : value.isObjOrArr = true
    · rw [if_pos hc, if_pos hc]
      show eraseIds (⟨gen ctr, key, Json.str "", d, none⟩ ::
          (flattenJson gen value (d + 1) (ctr + 1)).1 ++
          (flattenFields gen rest d (flattenJson gen value (d + 1) (ctr + 1)).2).1) = _
      simp only [eraseIds_cons, eraseIds_append]
      rw [flattenJson_shape gen value (d + 1) (ctr + 1)]
      rw [flattenFields_shape gen rest d (flattenJson gen value (d + 1) (ctr + 1)).2]
    · rw [if_neg hc, if_neg hc]
      show eraseIds (⟨gen ctr, key, value, d, none⟩ ::
          (flattenFields gen rest d (ctr + 1)).1) = _
      simp only [eraseIds_cons]
      rw [flattenFields_shape gen rest d (ctr + 1)]
termination_by sizeOf fields
end

/-- Counterexample to claim C6 as stated: two runs of `flattenJson` on the same
value, drawing different random ids, produce different FlatNode sequences. -/
theorem c6_cex :
    flattenTop (fun _ => "r1") (Json.obj [("k", Json.null)]) ≠
      flattenTop (fun _ => "r2") (Json.obj [("k", Json.null)]) := by
  have h1 : flattenTop (fun _ => "r1") (Json.obj [("k", Json.null)]) =
      [⟨"r1", "k", Json.null, 0, none⟩] := by
    simp only [flattenTop, flattenJson, flattenFields, Json.isObjOrArr]
    rfl
  have h2 : flattenTop (fun _ => "r2") (Json.obj [("k", Json.null)]) =
      [⟨"r2", "k", Json.null, 0, none⟩] := by
    simp only [flattenTop, flattenJson, flattenFields, Json.isObjOrArr]
    rfl
  rw [h1, h2]
  intro h
  simp at h

/-- Claim C6 amended: `nestJson` and `checkMatch` are deterministic pure
functions of their inputs, and `flattenJson` is deterministic in everything
except the generated ids: for any two id supplies and counter states, the two
runs agree after erasing ids (same keys, values and depths in the same order);
the id fields themselves come from the random generator and need not agree. -/
theorem c6_deterministic_up_to_ids (gen₁ gen₂ : Nat → String) (ctr₁ ctr₂ : Nat)
    (data : Json) (d : Int) (nodes₁ nodes₂ : List FlatNode) (v₁ v₂ : Json)
    (s₁ s₂ : String) :
    (eraseIds (flattenJson gen₁ data d ctr₁).1 = eraseIds (flattenJson gen₂ data d ctr₂).1) ∧
    (nodes₁ = nodes₂ → nestJson nodes₁ = nestJson nodes₂) ∧
    (v₁ = v₂ → s₁ = s₂ → checkMatch v₁ s₁ = checkMatch v₂ s₂) := by
  refine ⟨?_, fun h => by rw [h], fun h1 h2 => by rw [h1, h2]⟩
  rw [flattenJson_shape, flattenJson_shape]

theorem c6_wit :
    eraseIds (flattenTop (fun _ => "r1") (Json.obj [("k", Json.null)])) =
      eraseIds (flattenTop (fun _ => "r2") (Json.obj [("k", Json.null)])) :=
  (c6_deterministic_up_to_ids (fun _ => "r1") (fun _ => "r2") 0 0
    (Json.obj [("k", Json.null)]) 0 [] [] Json.null Json.null "" "").1
